import Mathlib

/-!
# Verification of `nnsmith/input_gen.py`

A shallow embedding, in Lean 4, of the domain-inference engine of
`nnsmith/input_gen.py`: the input sampler (`gen_one_input`,
`gen_one_input_rngs`), the NaN-detection predicate (`has_nan`), the
statistical decision procedure (`ORTNaNChecker.no_nan`) and the
range-search algorithm (`InputGenV3._get_range` / `infer_domain`).

Modelling conventions:
* Python floats are idealised as `ℚ` (exact arithmetic); casting an array
  to an integer dtype (`.astype`) truncates toward zero, as NumPy does,
  while casts to float dtypes are modelled as the identity.
* The NumPy random generator is abstracted as an explicit stream
  `uniform : ℚ → ℚ → ℕ → ℚ` handed to the sampler; the contract
  "`np.random.uniform(l, r)` draws values in `[l, r)` (and returns `l`
  when `l = r`)" becomes an explicit hypothesis `l ≤ uniform l r i ≤ r`
  in the theorems.
* The execution backend (`ORTExecutor.predict`) is abstracted as an
  oracle from input mappings to output mappings; output tensors carry a
  `FloatClass` tag so that NaN/Inf detection is exact.
* Fallible Python code (unset attribute access, `np.random.randint(0)`)
  is embedded in `Except PyError`.
* The `while` loop of the bisection helper is embedded with explicit
  fuel; all theorems proved about it hold for every fuel value, and
  `bsLoopFuel = 64` far exceeds the iterations the loop can perform on
  the windows arising in `_get_range` (window ≤ 20, EPS = 1/1000).
* Checker-call instrumentation: the embedded search routines also return
  the list of `(l, r)` queries made to `no_nan` (resp. the list of probe
  points handed to a bisection checker), so that claims about the number
  and order of checker calls are statable.
-/

/-! ## Data model: dtypes, tensor specs, arrays -/

/-- Numeric dtype tags of input tensors (the dtypes `analyze_onnx_io`
produces). Only the float/integer distinction matters for sampling. -/
inductive DType where
  | f32 | f64 | i32 | i64
deriving DecidableEq, Repr

/-- Is this dtype a floating-point dtype? -/
def DType.isFloat : DType → Bool
  | .f32 => true
  | .f64 => true
  | _ => false

/-- An input-tensor descriptor: declared shape and dtype
(`shape.shape`, `shape.dtype` in the Python source). -/
structure TensorSpec where
  shape : List ℕ
  dtype : DType
deriving DecidableEq, Repr

/-- An InputSpec: mapping from tensor name to descriptor, in declaration
order (a Python dict preserves insertion order). -/
abbrev InputSpec := List (String × TensorSpec)

/-- A concrete ndarray: its shape, dtype and (flattened) data. -/
structure NDArray where
  shape : List ℕ
  dtype : DType
  data : List ℚ
deriving DecidableEq, Repr

/-- Truncation toward zero: the rounding `astype(int-dtype)` applies to
float data in NumPy (C-style cast). -/
def truncTowardZero (q : ℚ) : ℚ :=
  if 0 ≤ q then ((⌊q⌋ : ℤ) : ℚ) else ((⌈q⌉ : ℤ) : ℚ)

/-- The cast `astype(dtype)` applied to one sampled value: identity for float
dtypes (floats are idealised as exact rationals), truncation toward zero
for integer dtypes. -/
def castVal (dt : DType) (q : ℚ) : ℚ :=
  if dt.isFloat then q else truncTowardZero q

/-- The values of one freshly sampled tensor: `n` consecutive draws of
`np.random.uniform(l, r)` starting at stream offset `off`, cast to the
tensor dtype. -/
def sampleFlat (dt : DType) (l r : ℚ) (uniform : ℚ → ℚ → ℕ → ℚ)
    (off n : ℕ) : List ℚ :=
  (List.range n).map (fun i => castVal dt (uniform l r (off + i)))

/-- Helper for `gen_one_input`: samples each tensor of the spec in order,
threading the position in the random stream. -/
def genOneInputAux (l r : ℚ) (uniform : ℚ → ℚ → ℕ → ℚ) :
    InputSpec → ℕ → List (String × NDArray)
  | [], _ => []
  | (name, ts) :: rest, off =>
      (name, ⟨ts.shape, ts.dtype, sampleFlat ts.dtype l r uniform off ts.shape.prod⟩)
        :: genOneInputAux l r uniform rest (off + ts.shape.prod)

/-- Embeds `gen_one_input(inp_spec, l, r)`: for every tensor of the spec, draw a
uniform sample in `[l, r]` of the declared shape, cast to the declared
dtype (`np.random.uniform(low=l, high=r, size=shape).astype(dtype)`). -/
def gen_one_input (inp_spec : InputSpec) (l r : ℚ)
    (uniform : ℚ → ℚ → ℕ → ℚ) : List (String × NDArray) :=
  genOneInputAux l r uniform inp_spec 0

/-! ## Output values and `has_nan` -/

/-- Classification of one output-tensor element: NaN, ±Inf or a finite
value. This is the only information `np.isnan`/`np.isinf` inspect. -/
inductive FloatClass where
  | nan
  | posInf
  | negInf
  | finite (q : ℚ)
deriving DecidableEq, Repr

/-- Embeds `np.isnan` on one element. Note `np.isnan(±inf) = False`. -/
def FloatClass.isNanB : FloatClass → Bool
  | .nan => true
  | _ => false

/-- Embeds `np.isinf` on one element. -/
def FloatClass.isInfB : FloatClass → Bool
  | .posInf => true
  | .negInf => true
  | _ => false

/-- An output mapping: tensor name to (flattened) element classes. -/
abbrev Output := List (String × List FloatClass)

/-- Embeds `has_nan(output)`: true iff some output tensor has some NaN element
(`np.isnan(o).any()` for some tensor `o`). Inf elements are NOT
inspected. -/
def has_nan (output : Output) : Bool :=
  output.any (fun kv => kv.2.any FloatClass.isNanB)

/-- Modelled from the spec's words (for comparison with `has_nan`): the
spec's "safe (no NaN/Inf in outputs)" criterion — true iff no output
tensor contains a NaN or an Inf element. -/
def safeSpecNaNInf (output : Output) : Bool :=
  output.all (fun kv => kv.2.all (fun v => !v.isNanB && !v.isInfB))

/-! ## The statistical decision procedure `no_nan` -/

/-- Number of successful trials among the first `k` (a trial `i` is a
success iff `out i = true`, i.e. its output was NaN-free). -/
def succCount (out : ℕ → Bool) (k : ℕ) : ℕ :=
  ((List.range k).filter (fun i => out i)).length

/-- The best-possible final success ratio after `k` completed trials out
of `maxT`: `(successes so far + remaining trials) / maxT`. -/
def bestPossible (maxT : ℕ) (out : ℕ → Bool) (k : ℕ) : ℚ :=
  ((succCount out k : ℚ) + ((maxT - k : ℕ) : ℚ)) / (maxT : ℚ)

/-- The trial loop of `ORTNaNChecker.no_nan`, as recursion on the number
of remaining trials (`rem = maxT - n` where `n` is the 0-based index of
the current trial). Returns the decision together with the number of
trials actually executed. Mirrors:
```
succ = 0
for ntrials in range(self.max_rng_trials):
    succ += not has_nan(out)
    remain = self.max_rng_trials - ntrials - 1
    if (succ + remain) / self.max_rng_trials < self.THRES:
        return False  # fast failure
return True
``` -/
def noNanGo (maxT : ℕ) (thres : ℚ) (out : ℕ → Bool) :
    ℕ → ℕ → ℕ → Bool × ℕ
  | 0, n, _ => (true, n)
  | rem + 1, n, succ =>
      let succ' := if out n then succ + 1 else succ
      if ((succ' : ℚ) + (rem : ℚ)) / (maxT : ℚ) < thres then (false, n + 1)
      else noNanGo maxT thres out rem (n + 1) succ'

/-- The whole trial loop starting from zero trials and zero successes. -/
def noNanRun (maxT : ℕ) (thres : ℚ) (out : ℕ → Bool) : Bool × ℕ :=
  noNanGo maxT thres out maxT 0 0

/-! ## `ORTNaNChecker` -/

/-- Python errors the embedded code can raise. `attributeError` models
Python's `AttributeError` on access to an attribute never set (this is
what the spec's taxonomy calls `UnboundModelError`); `valueError` models
`ValueError` (raised e.g. by `np.random.randint(0)`). -/
inductive PyError where
  | attributeError
  | valueError
deriving DecidableEq, Repr

/-- What `load_model` stores on the checker: the model handle is opaque,
the derived InputSpec (`analyze_onnx_io(model)[0]`) is what `no_nan`
reads. -/
structure BoundModel where
  inp_spec : InputSpec

/-- The mutable state of an `ORTNaNChecker`: the trial budget fixed at
construction and the optional binding installed by `load_model`
(`none` = `load_model` never called, so `self.model` / `self.inp_spec`
are unset attributes). -/
structure ORTNaNCheckerSt where
  max_rng_trials : ℕ
  bound : Option BoundModel

/-- The trial loop of `no_nan` with a fallible body, mirroring that the
Python loop body itself performs the attribute access, sampling and
execution (`trial n` is the whole body of iteration `n` up to the
success test): an iteration that raises aborts the loop with that error,
and a loop that never runs (`rem = 0` at entry, i.e. `range(0)`) never
raises. Same recursion structure as `noNanGo`. -/
def noNanGoE (maxT : ℕ) (thres : ℚ) (trial : ℕ → Except PyError Bool) :
    ℕ → ℕ → ℕ → Except PyError (Bool × ℕ)
  | 0, n, _ => .ok (true, n)
  | rem + 1, n, succ =>
      match trial n with
      | .error e => .error e
      | .ok ok =>
          let succ' := if ok then succ + 1 else succ
          if ((succ' : ℚ) + (rem : ℚ)) / (maxT : ℚ) < thres then .ok (false, n + 1)
          else noNanGoE maxT thres trial rem (n + 1) succ'

namespace ORTNaNChecker

/-- The class constant `ORTNaNChecker.THRES = 1`. -/
def THRES : ℚ := 1

/-- The constructor `__init__(max_rng_trials=3)`: fresh checker, no model bound. -/
def init (max_rng_trials : ℕ := 3) : ORTNaNCheckerSt :=
  ⟨max_rng_trials, none⟩

/-- Embeds `load_model(model)`: bind the model, deriving its InputSpec. The
derivation `analyze_onnx_io` is an external collaborator; its result is
passed in already computed. -/
def load_model (st : ORTNaNCheckerSt) (spec : InputSpec) : ORTNaNCheckerSt :=
  { st with bound := some ⟨spec⟩ }

/-- The body of one trial of `no_nan`, up to the success test: read
`self.inp_spec` (the access raises `AttributeError` — the spec's
`UnboundModelError` — when `load_model` was never called), sample a
fresh random input in `[l, r]` for every tensor
(`gen_one_input(self.inp_spec, l, r)`, with `draws i` the trial's own
uniform stream), run the executor oracle `predict`, and report whether
`has_nan` is false on the output. -/
def noNanTrial (st : ORTNaNCheckerSt) (l r : ℚ)
    (draws : ℕ → ℚ → ℚ → ℕ → ℚ)
    (predict : List (String × NDArray) → Output) (i : ℕ) :
    Except PyError Bool :=
  match st.bound with
  | none => .error .attributeError
  | some b => .ok (!has_nan (predict (gen_one_input b.inp_spec l r (draws i))))

/-- Embeds `no_nan(l, r)`: the statistical decision procedure. Each
iteration of the trial loop runs `noNanTrial` — the attribute access
`self.inp_spec` happens inside the loop body, so an unbound checker
fails at the first iteration, and a zero-trial checker (`range(0)`)
returns true without ever touching it — and counts the trial as a
success iff its output was NaN-free, with the fail-fast threshold test
after every trial. Returns the decision together with the number of
executions performed. -/
def no_nan (st : ORTNaNCheckerSt) (l r : ℚ)
    (draws : ℕ → ℚ → ℚ → ℕ → ℚ)
    (predict : List (String × NDArray) → Output) :
    Except PyError (Bool × ℕ) :=
  noNanGoE st.max_rng_trials THRES (noNanTrial st l r draws predict)
    st.max_rng_trials 0 0

end ORTNaNChecker

/-! ## `gen_one_input_rngs` -/

/-- The `rngs` argument of `gen_one_input_rngs`: `None`, an in-memory
list of `(low, high)` pairs, or a path to a pickled list. -/
inductive RngSource where
  | null
  | inline (rs : List (ℚ × ℚ))
  | path (p : String)

/-- Embeds `gen_one_input_rngs(inp_spec, rngs, seed)`. `fs` models the pickle
store (`pickle.load(open(p, 'rb'))` returns `fs p`); `pick` models the
draw of `np.random.randint(len(rngs))` (realised as `pick % len`, which
ranges over every index as `pick` does); `np.random.randint(0)` raises
`ValueError`, so an empty list of ranges is an error, not a fallback. -/
def gen_one_input_rngs (inp_spec : InputSpec) (rngs : RngSource)
    (fs : String → List (ℚ × ℚ)) (pick : ℕ)
    (uniform : ℚ → ℚ → ℕ → ℚ) : Except PyError (List (String × NDArray)) :=
  let rs : List (ℚ × ℚ) :=
    match rngs with
    | .null => [(0, 1)]
    | .inline rs => rs
    | .path p => fs p
  if h : rs.length = 0 then .error .valueError
  else
    let rng := rs.get ⟨pick % rs.length, Nat.mod_lt _ (Nat.pos_of_ne_zero h)⟩
    .ok (gen_one_input inp_spec rng.1 rng.2 uniform)

/-! ## `InputGenV3`: the range-search algorithm -/

namespace InputGenV3

/-- Global search lower bound `L = -10`. -/
def L : ℚ := -10

/-- Global search upper bound `R = 10`. -/
def R : ℚ := 10

/-- Binary-search precision `EPS = 1e-3`. -/
def EPS : ℚ := 1 / 1000

end InputGenV3

/-- Fuel for the bisection `while` loop. Every theorem below holds for
every fuel value; 64 iterations is far beyond what a window of width at
most 20 can sustain with `EPS = 1/1000` (15 halvings suffice). -/
def bsLoopFuel : ℕ := 64

/-- The `while r - l > EPS` loop of `binary_search`, with explicit fuel.
Returns the result together with the list of points the checker was
probed at, in order. Mirrors:
```
while r - l > self.EPS:
    mid = (l + r) / 2
    if checker(mid):
        r = mid
        if return_on_first: return r
    else:
        l = mid
return r
``` -/
def bsLoop (eps : ℚ) (c : ℚ → Bool) (rof : Bool) :
    ℕ → ℚ → ℚ → ℚ × List ℚ
  | 0, _, r => (r, [])
  | fuel + 1, l, r =>
      if eps < r - l then
        let mid := (l + r) / 2
        if c mid then
          if rof then (mid, [mid])
          else
            let x := bsLoop eps c rof fuel l mid
            (x.1, mid :: x.2)
        else
          let x := bsLoop eps c rof fuel mid r
          (x.1, mid :: x.2)
      else (r, [])

/-- Embeds `binary_search(l, r, checker, return_on_first=True)` of
`InputGenV3._get_range`, instrumented with the list of probe points.
`if l == r or checker(l): return l` short-circuits (no probe when
`l == r`), then the `while` loop runs. -/
def binary_search (eps : ℚ) (c : ℚ → Bool) (rof : Bool) (fuel : ℕ)
    (l r : ℚ) : ℚ × List ℚ :=
  if l = r then (l, [])
  else if c l then (l, [l])
  else
    let x := bsLoop eps c rof fuel l r
    (x.1, l :: x.2)

/-- The quantity `ceil(log2(w / eps))`: the number of checker calls the spec claims
bounds the bisection (the least `k` with `w / eps ≤ 2 ^ k`, computed via
`Nat.clog`). -/
def ceilLog2Ratio (w eps : ℚ) : ℕ :=
  Nat.clog 2 (⌈w / eps⌉.toNat)

/-- A NaN-checking capability as the range search sees it:
`c l r` models `self.nan_checker.no_nan(l, r)` on the bound model. -/
abbrev Checker := ℚ → ℚ → Bool

/-- One accepted range. -/
abbrev Rng := ℚ × ℚ

/-- The membership test of `_get_range`:
`any(rng[0] <= p <= rng[1] for rng in valid_rngs)`. -/
def included (rngs : List Rng) (p : ℚ) : Bool :=
  rngs.any (fun rng => decide (rng.1 ≤ p) && decide (p ≤ rng.2))

namespace InputGenV3

/-- New-range creation in `_get_range`: the left boundary by bisection
between `lastr` and the seed `p`, the right boundary by bisection
between `-R` and `-p` (negated). Returns the range together with the
`no_nan` queries the two bisections issue:
```
l = binary_search(last_r, valid_point, lambda l: no_nan(l, valid_point))
r = -binary_search(-self.R, -valid_point, lambda r: no_nan(l, -r))
``` -/
def mkNewRange (c : Checker) (lastr p : ℚ) : Rng × List (ℚ × ℚ) :=
  let bl := binary_search EPS (fun x => c x p) true bsLoopFuel lastr p
  let br := binary_search EPS (fun x => c bl.1 (-x)) true bsLoopFuel (-R) (-p)
  ((bl.1, -br.1), bl.2.map (fun x => (x, p)) ++ br.2.map (fun x => (bl.1, -x)))

/-- Processing of one seed point of `_get_range`'s main loop. The state
is the accepted-ranges list plus the accumulated `no_nan` query log.
Short-circuit order follows the source: the `included` test issues no
query; `no_nan(p, p)` is queried only when not included; the extension
query `no_nan(valid_rngs[-1][0], p)` only when the point check passed
and a previous range exists. -/
def processSeed (c : Checker) (st : List Rng × List (ℚ × ℚ)) (p : ℚ) :
    List Rng × List (ℚ × ℚ) :=
  if included st.1 p then st
  else if c p p = false then (st.1, st.2 ++ [(p, p)])
  else
    match st.1.getLast? with
    | none =>
        let nr := mkNewRange c L p
        (st.1 ++ [nr.1], st.2 ++ [(p, p)] ++ nr.2)
    | some last =>
        if c last.1 p then
          (st.1.dropLast ++ [(last.1, p)], st.2 ++ [(p, p), (last.1, p)])
        else
          let nr := mkNewRange c last.2 p
          (st.1 ++ [nr.1], st.2 ++ [(p, p), (last.1, p)] ++ nr.2)

/-- The seed points `np.linspace(-1, 1, 10)`: ten evenly spaced values
`-1 + 2k/9`, `k = 0, …, 9`, in ascending order. -/
def seeds : List ℚ :=
  (List.range 10).map (fun k => -1 + 2 * (k : ℚ) / 9)

/-- The state (`valid_rngs` and the accumulated query log) after the
main seed loop of `_get_range`. -/
def searchState (c : Checker) : List Rng × List (ℚ × ℚ) :=
  seeds.foldl (processSeed c) ([], [])

/-- Embeds `_get_range()`, instrumented: folds `processSeed` over the seed
points; an empty result list becomes the null sentinel (`None`). Also
returns the full `no_nan` query log. -/
def getRangeFull (c : Checker) : Option (List Rng) × List (ℚ × ℚ) :=
  (if (searchState c).1 = [] then none else some (searchState c).1,
    (searchState c).2)

/-- Embeds `_get_range()`: the returned value only. -/
def getRange (c : Checker) : Option (List Rng) :=
  (getRangeFull c).1

/-- Embeds `infer_domain(model)` after `load_model`: the fast path queries
`no_nan(0, 1)` once and returns `[(0, 1)]` on success; otherwise the
slow-path search runs. First component: the returned domain; second:
the `no_nan` query log. -/
def infer_domain (c : Checker) : Option (List Rng) × List (ℚ × ℚ) :=
  if c 0 1 then (some [(0, 1)], [(0, 1)])
  else
    let g := getRangeFull c
    (g.1, (0, 1) :: g.2)

end InputGenV3

/-! ## Lemmas about the trial loop -/

lemma succCount_succ (out : ℕ → Bool) (n : ℕ) :
    succCount out (n + 1) = succCount out n + (if out n then 1 else 0) := by
  by_cases h : out n <;>
    simp [succCount, List.range_succ, List.filter_append, h]

lemma succCount_add_le (out : ℕ → Bool) (k m : ℕ) :
    succCount out (k + m) ≤ succCount out k + m := by
  induction m with
  | zero => simp
  | succ m ih =>
      rw [← Nat.add_assoc, succCount_succ]
      by_cases h : out (k + m) <;> simp [h] <;> omega

/-- After `maxT` trials the best-possible ratio is the final ratio. -/
lemma bestPossible_final (maxT : ℕ) (out : ℕ → Bool) :
    bestPossible maxT out maxT = (succCount out maxT : ℚ) / (maxT : ℚ) := by
  simp [bestPossible]

/-- The best-possible ratio at any intermediate point dominates the
final ratio. -/
lemma final_le_bestPossible (maxT : ℕ) (out : ℕ → Bool) (k : ℕ)
    (hk : k ≤ maxT) (hpos : 0 < maxT) :
    (succCount out maxT : ℚ) / (maxT : ℚ) ≤ bestPossible maxT out k := by
  have hsplit : maxT = k + (maxT - k) := by omega
  have hnum : succCount out maxT ≤ succCount out k + (maxT - k) := by
    calc succCount out maxT = succCount out (k + (maxT - k)) := by rw [← hsplit]
    _ ≤ succCount out k + (maxT - k) := succCount_add_le out k (maxT - k)
  unfold bestPossible
  gcongr
  exact_mod_cast hnum


lemma noNanGo_step (maxT : ℕ) (thres : ℚ) (out : ℕ → Bool)
    (rem n succ : ℕ) :
    noNanGo maxT thres out (rem + 1) n succ =
      (if ((((if out n then succ + 1 else succ) : ℕ) : ℚ) + (rem : ℚ)) / (maxT : ℚ) < thres
       then (false, n + 1)
       else noNanGo maxT thres out rem (n + 1) ((if out n then succ + 1 else succ) : ℕ)) := rfl

/-- A fallible trial loop whose every probed iteration succeeds computes
exactly the pure trial loop. -/
lemma noNanGoE_ok (maxT : ℕ) (thres : ℚ) (trial : ℕ → Except PyError Bool)
    (out : ℕ → Bool) (h : ∀ i, trial i = .ok (out i)) :
    ∀ rem n succ, noNanGoE maxT thres trial rem n succ =
      .ok (noNanGo maxT thres out rem n succ) := by
  intro rem
  induction rem with
  | zero => intro n succ; rfl
  | succ rem ih =>
      intro n succ
      rw [noNanGo_step]
      have hstep : noNanGoE maxT thres trial (rem + 1) n succ =
          (if ((((if out n then succ + 1 else succ) : ℕ) : ℚ) + (rem : ℚ)) / (maxT : ℚ) < thres
           then .ok (false, n + 1)
           else noNanGoE maxT thres trial rem (n + 1)
             ((if out n then succ + 1 else succ) : ℕ)) := by
        simp [noNanGoE, h n]
      rw [hstep]
      by_cases hc :
          ((((if out n then succ + 1 else succ) : ℕ) : ℚ) + (rem : ℚ)) / (maxT : ℚ) < thres
      · rw [if_pos hc, if_pos hc]
      · rw [if_neg hc, if_neg hc]
        exact ih (n + 1) _

/-- A fallible trial loop with at least one remaining iteration aborts
with the first iteration's error. -/
lemma noNanGoE_error (maxT : ℕ) (thres : ℚ)
    (trial : ℕ → Except PyError Bool) (e : PyError) (rem n succ : ℕ)
    (h : trial n = .error e) :
    noNanGoE maxT thres trial (rem + 1) n succ = .error e := by
  simp [noNanGoE, h]

/-- Full characterisation of the trial loop, by induction on the number
of remaining trials: the loop never runs more than `maxT` trials,
returns true only by completing all trials with the threshold met, and
returns false exactly at the first trial whose best-possible final
ratio drops below the threshold. -/
lemma noNanGo_spec (maxT : ℕ) (thres : ℚ) (out : ℕ → Bool)
    (hpos : 0 < maxT) :
    ∀ rem n succ, rem + n = maxT → succ = succCount out n →
      (n = 0 ∨ thres ≤ bestPossible maxT out n) →
      n ≤ (noNanGo maxT thres out rem n succ).2 ∧
      (noNanGo maxT thres out rem n succ).2 ≤ maxT ∧
      ((noNanGo maxT thres out rem n succ).1 = true →
        (noNanGo maxT thres out rem n succ).2 = maxT ∧
        thres ≤ bestPossible maxT out maxT) ∧
      ((noNanGo maxT thres out rem n succ).1 = false →
        bestPossible maxT out (noNanGo maxT thres out rem n succ).2 < thres ∧
        ∀ k, n < k → k < (noNanGo maxT thres out rem n succ).2 →
          thres ≤ bestPossible maxT out k) := by
  intro rem
  induction rem with
  | zero =>
      intro n succ hrem hsucc hor
      have hn : n = maxT := by omega
      subst hn
      have hth : thres ≤ bestPossible n out n := by
        rcases hor with h0 | h
        · omega
        · exact h
      simp [noNanGo, hth]
  | succ rem ih =>
      intro n succ hrem hsucc hor
      have hrem1 : maxT - (n + 1) = rem := by omega
      have hsucc' : (if out n then succ + 1 else succ) = succCount out (n + 1) := by
        rw [succCount_succ, ← hsucc]
        by_cases h : out n <;> simp [h]
      have hbp : bestPossible maxT out (n + 1) =
          ((((if out n then succ + 1 else succ) : ℕ) : ℚ) + (rem : ℚ)) / (maxT : ℚ) := by
        unfold bestPossible
        rw [hrem1, hsucc']
      rw [noNanGo_step]
      by_cases hexit :
          ((((if out n then succ + 1 else succ) : ℕ) : ℚ) + (rem : ℚ)) / (maxT : ℚ) < thres
      · rw [if_pos hexit]
        refine ⟨Nat.le_succ n, (by omega : n + 1 ≤ maxT), by simp, fun _ => ⟨?_, ?_⟩⟩
        · show bestPossible maxT out (n + 1) < thres
          rw [hbp]; exact hexit
        · intro k hk1 hk2
          have hk2' : k < n + 1 := hk2
          exact (by omega : False).elim
      · rw [if_neg hexit]
        have hth1 : thres ≤ bestPossible maxT out (n + 1) := by
          rw [hbp]; exact not_lt.mp hexit
        obtain ⟨h1, h2, h3, h4⟩ :=
          ih (n + 1) ((if out n then succ + 1 else succ) : ℕ) (by omega) hsucc' (Or.inr hth1)
        refine ⟨le_trans (Nat.le_succ n) h1, h2, h3, fun hf => ⟨(h4 hf).1, ?_⟩⟩
        intro k hk1 hk2
        rcases eq_or_lt_of_le (Nat.succ_le_of_lt hk1) with he | hgt
        · exact he ▸ hth1
        · exact (h4 hf).2 k hgt hk2

/-! ## Claim C1 -/

/-- C1: for every bound model and range `[l, r]`, `no_nan` runs at most
`max_rng_trials` executions, each on a fresh random input sampled in
`[l, r]` for every tensor of the InputSpec (trial `i` uses its own
stream `draws i`), counting an execution as a success iff its output has
no NaN; it returns false exactly when, after some trial, the
best-possible final ratio `(successes + remaining) / max_rng_trials`
first drops below `THRES` (every earlier trial had it at or above
`THRES`), and it returns true iff the final success ratio over all
trials is at least `THRES` (in which case all trials were executed). -/
theorem C1_no_nan_decision (st : ORTNaNCheckerSt) (b : BoundModel) (l r : ℚ)
    (draws : ℕ → ℚ → ℚ → ℕ → ℚ) (predict : List (String × NDArray) → Output)
    (hb : st.bound = some b) (hpos : 0 < st.max_rng_trials) :
    ORTNaNChecker.no_nan st l r draws predict =
      .ok (noNanRun st.max_rng_trials ORTNaNChecker.THRES
            (fun i => !has_nan (predict (gen_one_input b.inp_spec l r (draws i))))) ∧
    ∀ res trials,
      noNanRun st.max_rng_trials ORTNaNChecker.THRES
          (fun i => !has_nan (predict (gen_one_input b.inp_spec l r (draws i)))) =
        (res, trials) →
      trials ≤ st.max_rng_trials ∧
      (res = true ↔ ORTNaNChecker.THRES ≤
        (succCount (fun i => !has_nan (predict (gen_one_input b.inp_spec l r (draws i))))
            st.max_rng_trials : ℚ) / (st.max_rng_trials : ℚ)) ∧
      (res = true → trials = st.max_rng_trials) ∧
      (res = false →
        bestPossible st.max_rng_trials
            (fun i => !has_nan (predict (gen_one_input b.inp_spec l r (draws i)))) trials <
          ORTNaNChecker.THRES ∧
        ∀ k, 0 < k → k < trials →
          ORTNaNChecker.THRES ≤ bestPossible st.max_rng_trials
            (fun i => !has_nan (predict (gen_one_input b.inp_spec l r (draws i)))) k) := by
  constructor
  · unfold ORTNaNChecker.no_nan noNanRun
    exact noNanGoE_ok st.max_rng_trials ORTNaNChecker.THRES
      (ORTNaNChecker.noNanTrial st l r draws predict)
      (fun i => !has_nan (predict (gen_one_input b.inp_spec l r (draws i))))
      (fun i => by simp [ORTNaNChecker.noNanTrial, hb]) st.max_rng_trials 0 0
  · intro res trials heq
    set outf := fun i => !has_nan (predict (gen_one_input b.inp_spec l r (draws i)))
      with houtf
    have hspec := noNanGo_spec st.max_rng_trials ORTNaNChecker.THRES outf hpos
      st.max_rng_trials 0 0 (by omega) (by simp [succCount]) (Or.inl rfl)
    unfold noNanRun at heq
    rw [heq] at hspec
    obtain ⟨h1, h2, h3, h4⟩ := hspec
    refine ⟨h2, ⟨?_, ?_⟩, fun ht => (h3 ht).1, h4⟩
    · intro ht
      have hfin := (h3 ht).2
      rwa [bestPossible_final] at hfin
    · intro hratio
      by_contra hres
      have hres' : res = false := by
        cases res
        · rfl
        · exact absurd rfl hres
      obtain ⟨hlt, _⟩ := h4 hres'
      have hge := final_le_bestPossible st.max_rng_trials outf trials h2 hpos
      exact absurd (lt_of_le_of_lt (le_trans hratio hge) hlt) (lt_irrefl _)

/-- A bound model used in concrete instantiations: one `1×1` float
tensor. -/
def bW : BoundModel := ⟨[("i0", ⟨[1], DType.f32⟩)]⟩

/-- A checker state with `bW` bound and `max_rng_trials = 3`. -/
def stW : ORTNaNCheckerSt := ⟨3, some bW⟩

/-- A deterministic "uniform" stream for concrete instantiations. -/
def drawsW : ℕ → ℚ → ℚ → ℕ → ℚ := fun _ _ _ _ => 1 / 2

/-- An executor oracle whose outputs are always finite. -/
def predictW : List (String × NDArray) → Output := fun _ => [("o", [.finite 0])]

/-- Witness for C1: the decision theorem applied to the concrete bound
checker `stW` on the range `[0, 1]`. -/
theorem C1_witness :
    stW.bound = some bW ∧ 0 < stW.max_rng_trials ∧
    ORTNaNChecker.no_nan stW 0 1 drawsW predictW =
      .ok (noNanRun stW.max_rng_trials ORTNaNChecker.THRES
        (fun i => !has_nan (predictW (gen_one_input bW.inp_spec 0 1 (drawsW i))))) :=
  ⟨rfl, by decide, (C1_no_nan_decision stW bW 0 1 drawsW predictW rfl (by decide)).1⟩

/-! ## Claim C9 -/

/-- C9 (amended): a decision query (`no_nan`) issued on a checker with a
positive trial budget before `load_model` has been called fails with the
unbound-model error: the first loop iteration's access to
`self.inp_spec` raises (Python's `AttributeError`, the failure the
spec's taxonomy names `UnboundModelError`). The attribute access lives
inside the loop body, so the universal claim fails for the degenerate
zero-trial checker, whose loop body never runs (see the
counterexample). -/
theorem C9_no_nan_unbound (st : ORTNaNCheckerSt) (l r : ℚ)
    (draws : ℕ → ℚ → ℚ → ℕ → ℚ) (predict : List (String × NDArray) → Output)
    (h : st.bound = none) (hpos : 0 < st.max_rng_trials) :
    ORTNaNChecker.no_nan st l r draws predict = .error .attributeError := by
  obtain ⟨k, hk⟩ : ∃ k, st.max_rng_trials = k + 1 :=
    ⟨st.max_rng_trials - 1, by omega⟩
  unfold ORTNaNChecker.no_nan
  rw [hk]
  exact noNanGoE_error _ _ _ _ k 0 0 (by simp [ORTNaNChecker.noNanTrial, h])

/-- A checker with a zero trial budget, never bound to a model. -/
def stZero : ORTNaNCheckerSt := ⟨0, none⟩

/-- Counterexample for C9 as stated: on a zero-trial checker the loop
body — and with it the `self.inp_spec` attribute access — never runs
(`range(0)` is empty), so the query on the unbound checker returns true
after zero executions instead of failing. -/
theorem C9_counterexample :
    stZero.bound = none ∧
    ORTNaNChecker.no_nan stZero 0 1 drawsW predictW = .ok (true, 0) :=
  ⟨rfl, rfl⟩

/-- Witness for C9: a freshly constructed checker (no `load_model`, the
default three-trial budget) rejects the query on `[0, 1]`. -/
theorem C9_witness :
    (ORTNaNChecker.init 3).bound = none ∧
    0 < (ORTNaNChecker.init 3).max_rng_trials ∧
    ORTNaNChecker.no_nan (ORTNaNChecker.init 3) 0 1 drawsW predictW =
      .error .attributeError :=
  ⟨rfl, by decide,
   C9_no_nan_unbound (ORTNaNChecker.init 3) 0 1 drawsW predictW rfl (by decide)⟩

/-! ## Claim C5 -/

/-- C5 (amended): `has_nan` — the success criterion of the NaN-checking
capability (a trial is safe iff `has_nan` of its output is false) —
detects exactly the presence of NaN elements: a trial is safe iff no
output tensor contains a NaN element. Inf elements are not inspected
(`np.isinf` is never called), contrary to the spec's "no NaN/Inf"
wording. -/
theorem C5_has_nan_nan_only (out : Output) :
    has_nan out = false ↔ ∀ kv ∈ out, ∀ v ∈ kv.2, v.isNanB = false := by
  simp [has_nan]

/-- An output mapping containing an infinity and no NaN. -/
def outInf : Output := [("o", [.posInf])]

/-- Counterexample for C5 as stated: an output whose only element is
`+inf` is counted safe by the code (`has_nan = false`, so the trial
counts as a success), yet the spec's "no NaN and no Inf" criterion
rejects it. -/
theorem C5_counterexample :
    has_nan outInf = false ∧ safeSpecNaNInf outInf = false :=
  ⟨rfl, rfl⟩

/-! ## Claim C8 -/

/-- The per-pair relation claimed between an input tensor spec and the
sampled array: right name, declared shape and dtype, flat data of the
declared size, all elements within `[l, r]`. -/
def SampleOk (l r : ℚ) (sp : String × TensorSpec) (arr : String × NDArray) : Prop :=
  arr.1 = sp.1 ∧ arr.2.shape = sp.2.shape ∧ arr.2.dtype = sp.2.dtype ∧
  arr.2.data.length = sp.2.shape.prod ∧
  ∀ v ∈ arr.2.data, l ≤ v ∧ v ≤ r

lemma genOneInputAux_forall₂ (l r : ℚ) (uniform : ℚ → ℚ → ℕ → ℚ)
    (hu : ∀ i, l ≤ uniform l r i ∧ uniform l r i ≤ r) :
    ∀ (spec : InputSpec) (off : ℕ),
      (∀ nts ∈ spec, (nts.2 : TensorSpec).dtype.isFloat = true) →
      List.Forall₂ (SampleOk l r) spec (genOneInputAux l r uniform spec off) := by
  intro spec
  induction spec with
  | nil => intro off _; exact List.Forall₂.nil
  | cons nts rest ih =>
      intro off hfloat
      obtain ⟨name, ts⟩ := nts
      refine List.Forall₂.cons ⟨rfl, rfl, rfl, ?_, ?_⟩ (ih _ (fun x hx => hfloat x (by simp [hx])))
      · simp [sampleFlat]
      · intro v hv
        simp only [sampleFlat, List.mem_map, List.mem_range] at hv
        obtain ⟨i, _, hvv⟩ := hv
        have hfl : ts.dtype.isFloat = true := hfloat (name, ts) (by simp)
        rw [← hvv, castVal, hfl]
        simp only [if_true]
        exact hu (off + i)

/-- C8 (amended): for every InputSpec all of whose tensors have a float
dtype, and every range with `low ≤ high`, every array produced by
`gen_one_input` has the declared name, shape and dtype, its flat data
has the declared number of elements, and every element lies within
`[low, high]` (given the `np.random.uniform` contract). For integer
dtypes the trailing `.astype` truncates toward zero and can move an
element below `low` (see the counterexample), so the element-range
guarantee is restricted to value-preserving (float) dtypes. -/
theorem C8_gen_one_input (inp_spec : InputSpec) (l r : ℚ)
    (uniform : ℚ → ℚ → ℕ → ℚ) (hlr : l ≤ r)
    (hu : ∀ i, l ≤ uniform l r i ∧ uniform l r i ≤ r)
    (hfloat : ∀ nts ∈ inp_spec, (nts.2 : TensorSpec).dtype.isFloat = true) :
    List.Forall₂ (SampleOk l r) inp_spec (gen_one_input inp_spec l r uniform) :=
  genOneInputAux_forall₂ l r uniform hu inp_spec 0 hfloat

/-- An InputSpec with a single integer-dtype tensor. -/
def specInt : InputSpec := [("i0", ⟨[1], DType.i64⟩)]

/-- A "uniform" stream drawing the constant `0.7`. -/
def uniformCex : ℚ → ℚ → ℕ → ℚ := fun _ _ _ => 7 / 10

/-- Counterexample for C8 as stated: on the integer-dtype spec `specInt`
with range `[1/2, 2]`, the draw `0.7` lies within the range, but
`astype(int64)` truncates it to `0`, which lies below `low = 1/2` — so
"every element lies within `[low, high]`" fails for non-float dtypes. -/
theorem C8_counterexample :
    ((1 : ℚ) / 2 ≤ 7 / 10 ∧ (7 : ℚ) / 10 ≤ 2) ∧
    gen_one_input specInt (1 / 2) 2 uniformCex = [("i0", ⟨[1], DType.i64, [0]⟩)] ∧
    ¬ ((1 : ℚ) / 2 ≤ 0) := by
  refine ⟨⟨by norm_num, by norm_num⟩, by with_unfolding_all rfl, by norm_num⟩

/-- Witness for C8: the sampler theorem applied to the all-float spec
`bW.inp_spec` on `[0, 1]` with the constant-`1/2` stream. -/
theorem C8_witness :
    (0 : ℚ) ≤ 1 ∧
    List.Forall₂ (SampleOk 0 1) bW.inp_spec (gen_one_input bW.inp_spec 0 1 (drawsW 0)) :=
  ⟨by norm_num,
   C8_gen_one_input bW.inp_spec 0 1 (drawsW 0) (by norm_num)
     (fun i => by constructor <;> norm_num [drawsW])
     (by decide)⟩

/-! ## Claim C6 -/

/-- C6 (amended): `gen_one_input_rngs` with a null (`None`) RangeSet
falls back to the default range `(0, 1)` and returns a sampled mapping;
with a non-empty RangeSet it selects one of its ranges (the
`np.random.randint` draw) and delegates to the sampler; with a path-like
reference it loads the persisted RangeSet first and then behaves as with
the loaded list. An EMPTY RangeSet, however, is not a fallback case:
`np.random.randint(0)` raises `ValueError` (see the counterexample). -/
theorem C6_gen_one_input_rngs (inp_spec : InputSpec)
    (fs : String → List (ℚ × ℚ)) (pick : ℕ) (uniform : ℚ → ℚ → ℕ → ℚ)
    (rs : List (ℚ × ℚ)) (p : String) (hrs : rs ≠ []) :
    gen_one_input_rngs inp_spec .null fs pick uniform =
      .ok (gen_one_input inp_spec 0 1 uniform) ∧
    (∃ rng ∈ rs, gen_one_input_rngs inp_spec (.inline rs) fs pick uniform =
      .ok (gen_one_input inp_spec rng.1 rng.2 uniform)) ∧
    gen_one_input_rngs inp_spec (.path p) fs pick uniform =
      gen_one_input_rngs inp_spec (.inline (fs p)) fs pick uniform := by
  refine ⟨?_, ?_, rfl⟩
  · simp [gen_one_input_rngs]
  · have hlen : rs.length ≠ 0 := by
      simpa [List.length_eq_zero] using hrs
    refine ⟨rs.get ⟨pick % rs.length, Nat.mod_lt _ (Nat.pos_of_ne_zero hlen)⟩,
      List.get_mem rs _ _, ?_⟩
    simp [gen_one_input_rngs, hlen]

/-- Counterexample for C6 as stated: an empty (but non-null) RangeSet
does not fall back to `(0, 1)`: `np.random.randint(len(rngs))` with
`len(rngs) = 0` raises `ValueError`, so no sampled mapping is
returned. -/
theorem C6_counterexample :
    gen_one_input_rngs specInt (.inline []) (fun _ => []) 0 uniformCex =
      .error .valueError := rfl

/-- Witness for C6: the null-fallback branch on a concrete spec. -/
theorem C6_witness :
    ([((5 : ℚ), (6 : ℚ))] ≠ []) ∧
    gen_one_input_rngs bW.inp_spec .null (fun _ => [(2, 3)]) 0 (drawsW 0) =
      .ok (gen_one_input bW.inp_spec 0 1 (drawsW 0)) :=
  ⟨by simp,
   (C6_gen_one_input_rngs bW.inp_spec (fun _ => [(2, 3)]) 0 (drawsW 0)
     [(5, 6)] "domain.pkl" (by simp)).1⟩

/-! ## Claim C3 -/

/-- C3: if the NaN-checking capability accepts the range `(0, 1)`, then
`infer_domain` returns exactly `[(0, 1)]` immediately, and its `no_nan`
query log is exactly `[(0, 1)]` — the capability was consulted once, on
`(0, 1)`, and the slow-path search issued no query (it was not
invoked). -/
theorem C3_infer_domain_fast_path (c : Checker) (h : c 0 1 = true) :
    InputGenV3.infer_domain c = (some [(0, 1)], [(0, 1)]) := by
  simp [InputGenV3.infer_domain, h]

/-- The always-accepting checker. -/
def cTrue : Checker := fun _ _ => true

/-- Witness for C3: the fast path on the always-accepting checker. -/
theorem C3_witness :
    cTrue 0 1 = true ∧
    InputGenV3.infer_domain cTrue = (some [(0, 1)], [(0, 1)]) :=
  ⟨rfl, C3_infer_domain_fast_path cTrue rfl⟩

/-! ## Claim C7 -/

lemma foldl_processSeed_nil (c : Checker) :
    ∀ (ss : List ℚ), (∀ p ∈ ss, c p p = false) →
      ∀ qs, (ss.foldl (InputGenV3.processSeed c) ([], qs)).1 = [] := by
  intro ss
  induction ss with
  | nil => intro _ qs; rfl
  | cons p rest ih =>
      intro h qs
      have hstep : InputGenV3.processSeed c ([], qs) p = ([], qs ++ [(p, p)]) := by
        simp [InputGenV3.processSeed, included, h p (by simp)]
      rw [List.foldl_cons, hstep]
      exact ih (fun q hq => h q (by simp [hq])) _

/-- C7: for every checker behaviour under which no seed point passes its
own point check (`no_nan(p, p)` false for every seed), the slow-path
search `_get_range` returns the null sentinel `None` — not an exception
and not an empty list — signalling a degraded-inference outcome for the
caller to substitute a default range. -/
theorem C7_no_valid_range_null (c : Checker)
    (h : ∀ p ∈ InputGenV3.seeds, c p p = false) :
    InputGenV3.getRange c = none := by
  have hnil : (InputGenV3.searchState c).1 = [] :=
    foldl_processSeed_nil c InputGenV3.seeds h []
  unfold InputGenV3.getRange InputGenV3.getRangeFull
  rw [if_pos hnil]

/-- The always-rejecting checker. -/
def cFalse : Checker := fun _ _ => false

/-- Witness for C7: the always-rejecting checker yields the null
sentinel. -/
theorem C7_witness :
    (∀ p ∈ InputGenV3.seeds, cFalse p p = false) ∧
    InputGenV3.getRange cFalse = none :=
  ⟨fun p _ => rfl, C7_no_valid_range_null cFalse (fun p _ => rfl)⟩

/-! ## Claim C2: the bisection helper -/

lemma bsLoop_probes_le (eps : ℚ) (c : ℚ → Bool) (rof : Bool) (heps : 0 < eps) :
    ∀ fuel (n : ℕ) (l r : ℚ), r - l ≤ eps * 2 ^ n →
      ((bsLoop eps c rof fuel l r).2).length ≤ n := by
  intro fuel
  induction fuel with
  | zero => intro n l r _; simp [bsLoop]
  | succ fuel ih =>
      intro n l r hw
      by_cases hcond : eps < r - l
      · match n with
        | 0 =>
            exfalso
            simp at hw
            linarith
        | m + 1 =>
            have hpow : (0:ℚ) < 2 ^ m := by positivity
            have hhalf : (r - l) / 2 ≤ eps * 2 ^ m := by
              rw [pow_succ] at hw
              linarith
            by_cases hc : c ((l + r) / 2)
            · cases rof with
              | true => simp [bsLoop, hcond, hc]
              | false =>
                  have hrec := ih m l ((l + r) / 2) (by linarith)
                  simp [bsLoop, hcond, hc]
                  omega
            · have hrec := ih m ((l + r) / 2) r (by linarith)
              simp [bsLoop, hcond, hc]
              omega
      · simp [bsLoop, hcond]

lemma bsLoop_mem (eps : ℚ) (c : ℚ → Bool) (rof : Bool) (heps : 0 < eps) :
    ∀ fuel (l r : ℚ), l ≤ r →
      l ≤ (bsLoop eps c rof fuel l r).1 ∧ (bsLoop eps c rof fuel l r).1 ≤ r := by
  intro fuel
  induction fuel with
  | zero => intro l r h; simpa [bsLoop] using h
  | succ fuel ih =>
      intro l r h
      by_cases hcond : eps < r - l
      · have hlm : l ≤ (l + r) / 2 := by linarith
        have hmr : (l + r) / 2 ≤ r := by linarith
        by_cases hc : c ((l + r) / 2)
        · cases rof with
          | true =>
              simp [bsLoop, hcond, hc]
              exact ⟨hlm, hmr⟩
          | false =>
              have hrec := ih l ((l + r) / 2) hlm
              simp [bsLoop, hcond, hc]
              exact ⟨hrec.1, le_trans hrec.2 hmr⟩
        · have hrec := ih ((l + r) / 2) r hmr
          simp [bsLoop, hcond, hc]
          exact ⟨le_trans hlm hrec.1, hrec.2⟩
      · simpa [bsLoop, hcond] using h

lemma bsLoop_result_true (eps : ℚ) (c : ℚ → Bool) (rof : Bool) :
    ∀ fuel (l r : ℚ), c r = true →
      c (bsLoop eps c rof fuel l r).1 = true := by
  intro fuel
  induction fuel with
  | zero => intro l r h; simpa [bsLoop] using h
  | succ fuel ih =>
      intro l r h
      by_cases hcond : eps < r - l
      · by_cases hc : c ((l + r) / 2)
        · cases rof with
          | true => simp [bsLoop, hcond, hc]
          | false =>
              have hrec := ih l ((l + r) / 2) hc
              simpa [bsLoop, hcond, hc] using hrec
        · have hrec := ih ((l + r) / 2) r h
          simpa [bsLoop, hcond, hc] using hrec
      · simpa [bsLoop, hcond] using h

/-- The bound `w ≤ eps * 2 ^ ceilLog2Ratio w eps`: the claimed call bound really is
a number of halvings sufficient to shrink a window of width `w` below
`eps`. -/
lemma le_eps_mul_pow_ceilLog2 (w eps : ℚ) (heps : 0 < eps) :
    w ≤ eps * 2 ^ ceilLog2Ratio w eps := by
  rcases le_or_lt w 0 with hw | hw
  · have hpos : (0:ℚ) < eps * 2 ^ ceilLog2Ratio w eps := by positivity
    linarith
  · have hq0 : 0 < w / eps := div_pos hw heps
    have hceil : (0:ℤ) < ⌈w / eps⌉ := Int.ceil_pos.mpr hq0
    have htn : ((⌈w / eps⌉.toNat : ℤ) : ℚ) = ((⌈w / eps⌉ : ℤ) : ℚ) := by
      rw [Int.toNat_of_nonneg (le_of_lt hceil)]
    have hle : ⌈w / eps⌉.toNat ≤ 2 ^ Nat.clog 2 ⌈w / eps⌉.toNat :=
      Nat.le_pow_clog (by norm_num) _
    have hqle : w / eps ≤ (2:ℚ) ^ ceilLog2Ratio w eps := by
      calc w / eps ≤ ((⌈w / eps⌉ : ℤ) : ℚ) := Int.le_ceil _
      _ = ((⌈w / eps⌉.toNat : ℤ) : ℚ) := htn.symm
      _ ≤ ((2 ^ Nat.clog 2 ⌈w / eps⌉.toNat : ℕ) : ℚ) := by exact_mod_cast hle
      _ = (2:ℚ) ^ ceilLog2Ratio w eps := by
          rw [ceilLog2Ratio]
          push_cast
          rfl
    calc w = eps * (w / eps) := by field_simp
    _ ≤ eps * 2 ^ ceilLog2Ratio w eps :=
        mul_le_mul_of_nonneg_left hqle (le_of_lt heps)

/-- C2 (amended): for every monotone false-then-true checker that holds
at `r`, the bisection helper with `return_on_first = True` (as
`_get_range` invokes it) makes at most `ceil(log2(window / EPS)) + 1`
checker calls (the `+ 1` is the initial `checker(l)` probe), and returns
a point of `[l, r]` at which the checker holds — a point on the safe
side of the false-to-true transition just as every accepted probe is,
but NOT necessarily within `EPS` of the transition: with
`return_on_first` the helper returns the first successful probe, which
can be as far as half the initial window from the boundary (see the
counterexample). -/
theorem C2_binary_search_bound (c : ℚ → Bool) (l r : ℚ) (hlr : l ≤ r)
    (hmono : ∀ x y : ℚ, x ≤ y → c x = true → c y = true)
    (hcr : c r = true) :
    (binary_search InputGenV3.EPS c true bsLoopFuel l r).2.length ≤
      ceilLog2Ratio (r - l) InputGenV3.EPS + 1 ∧
    l ≤ (binary_search InputGenV3.EPS c true bsLoopFuel l r).1 ∧
    (binary_search InputGenV3.EPS c true bsLoopFuel l r).1 ≤ r ∧
    c (binary_search InputGenV3.EPS c true bsLoopFuel l r).1 = true := by
  have heps : (0:ℚ) < InputGenV3.EPS := by norm_num [InputGenV3.EPS]
  have hw : r - l ≤ InputGenV3.EPS * 2 ^ ceilLog2Ratio (r - l) InputGenV3.EPS :=
    le_eps_mul_pow_ceilLog2 _ _ heps
  by_cases heq : l = r
  · subst heq
    simp [binary_search, hcr]
  · by_cases hcl : c l
    · have h1 : binary_search InputGenV3.EPS c true bsLoopFuel l r = (l, [l]) := by
        simp [binary_search, heq, hcl]
      rw [h1]
      exact ⟨by simp, le_refl l, hlr, hcl⟩
    · have hprob := bsLoop_probes_le InputGenV3.EPS c true heps bsLoopFuel
        (ceilLog2Ratio (r - l) InputGenV3.EPS) l r hw
      have hmem := bsLoop_mem InputGenV3.EPS c true heps bsLoopFuel l r hlr
      have hres := bsLoop_result_true InputGenV3.EPS c true bsLoopFuel l r hcr
      have h1 : binary_search InputGenV3.EPS c true bsLoopFuel l r =
          ((bsLoop InputGenV3.EPS c true bsLoopFuel l r).1,
            l :: (bsLoop InputGenV3.EPS c true bsLoopFuel l r).2) := by
        simp [binary_search, heq, hcl]
      rw [h1]
      refine ⟨?_, hmem.1, hmem.2, hres⟩
      simp only [List.length_cons]
      omega

/-- The step checker transitioning at `1/2`. -/
def cEx : ℚ → Bool := fun x => decide ((1:ℚ)/2 ≤ x)

/-- The step checker transitioning at `1/500`. -/
def cEx2 : ℚ → Bool := fun x => decide ((1:ℚ)/500 ≤ x)

/-- Counterexample for C2 as stated. `cEx` is a monotone false-to-true
checker whose transition is exactly `1/2`, yet on `[0, 8]` the helper
returns `4`, which is `3.5` away from the transition — far more than
`EPS`. And `cEx2` is monotone with transition `1/500`, yet on
`[0, 1/500]` (window `2·EPS`) the helper makes `2` checker calls while
`ceil(log2(window/EPS)) = 1`. -/
theorem C2_counterexample :
    (∀ x y : ℚ, x ≤ y → cEx x = true → cEx y = true) ∧
    (∀ x : ℚ, cEx x = true ↔ 1/2 ≤ x) ∧
    (binary_search InputGenV3.EPS cEx true bsLoopFuel 0 8).1 = 4 ∧
    ¬ (|(4 : ℚ) - 1/2| ≤ InputGenV3.EPS) ∧
    (∀ x y : ℚ, x ≤ y → cEx2 x = true → cEx2 y = true) ∧
    (binary_search InputGenV3.EPS cEx2 true bsLoopFuel 0 (1/500)).2.length = 2 ∧
    ceilLog2Ratio ((1:ℚ)/500 - 0) InputGenV3.EPS = 1 := by
  refine ⟨?_, ?_, ?_, ?_, ?_, ?_, ?_⟩
  · intro x y hxy hx
    simp [cEx] at hx ⊢
    linarith
  · intro x
    simp [cEx]
  · with_unfolding_all rfl
  · rw [show |(4 : ℚ) - 1/2| = 7/2 by norm_num]
    norm_num [InputGenV3.EPS]
  · intro x y hxy hx
    simp [cEx2] at hx ⊢
    linarith
  · with_unfolding_all rfl
  · with_unfolding_all rfl

/-- The step checker transitioning at `0`. -/
def cW : ℚ → Bool := fun x => decide ((0:ℚ) ≤ x)

/-- Witness for C2: the amended helper theorem applied to the monotone
checker `cW` on `[0, 8]`. -/
theorem C2_witness :
    ((0:ℚ) ≤ 8) ∧ cW 8 = true ∧
    (binary_search InputGenV3.EPS cW true bsLoopFuel 0 8).2.length ≤
      ceilLog2Ratio ((8:ℚ) - 0) InputGenV3.EPS + 1 ∧
    cW (binary_search InputGenV3.EPS cW true bsLoopFuel 0 8).1 = true := by
  have hmono : ∀ x y : ℚ, x ≤ y → cW x = true → cW y = true := by
    intro x y hxy hx
    simp [cW] at hx ⊢
    linarith
  have h := C2_binary_search_bound cW 0 8 (by norm_num) hmono (by with_unfolding_all rfl)
  exact ⟨by norm_num, by with_unfolding_all rfl, h.1, h.2.2.2⟩

/-! ## Claims C4 and C10: structure of the produced RangeSet -/

lemma binary_search_mem (eps : ℚ) (c : ℚ → Bool) (rof : Bool) (fuel : ℕ)
    (l r : ℚ) (heps : 0 < eps) (hlr : l ≤ r) :
    l ≤ (binary_search eps c rof fuel l r).1 ∧
    (binary_search eps c rof fuel l r).1 ≤ r := by
  by_cases heq : l = r
  · subst heq; simp [binary_search]
  · by_cases hcl : c l
    · simp [binary_search, heq, hcl]
      exact hlr
    · have := bsLoop_mem eps c rof heps fuel l r hlr
      simpa [binary_search, heq, hcl] using this

/-- The structural invariant maintained over the seed fold: accepted
ranges are ordered (`a.high ≤ b.low` for every earlier/later pair), each
is well-formed (`low ≤ high`), lies within `[L, R]` and contains a seed
point, and every accepted low lies strictly below every unprocessed
seed. -/
def searchInv (rngs : List Rng) (futures : List ℚ) : Prop :=
  rngs.Pairwise (fun a b => a.2 ≤ b.1) ∧
  (∀ rg ∈ rngs, rg.1 ≤ rg.2 ∧ InputGenV3.L ≤ rg.1 ∧ rg.2 ≤ InputGenV3.R ∧
    ∃ s ∈ InputGenV3.seeds, rg.1 ≤ s ∧ s ≤ rg.2) ∧
  (∀ rg ∈ rngs, ∀ s ∈ futures, rg.1 < s)

lemma mkNewRange_bounds (c : Checker) (lastr p : ℚ)
    (hlp : lastr ≤ p) (hpR : p ≤ InputGenV3.R) :
    lastr ≤ (InputGenV3.mkNewRange c lastr p).1.1 ∧
    (InputGenV3.mkNewRange c lastr p).1.1 ≤ p ∧
    p ≤ (InputGenV3.mkNewRange c lastr p).1.2 ∧
    (InputGenV3.mkNewRange c lastr p).1.2 ≤ InputGenV3.R := by
  have heps : (0:ℚ) < InputGenV3.EPS := by norm_num [InputGenV3.EPS]
  have hbl := binary_search_mem InputGenV3.EPS (fun x => c x p) true bsLoopFuel
    lastr p heps hlp
  have hnp : -InputGenV3.R ≤ -p := by linarith
  have hbr := binary_search_mem InputGenV3.EPS
    (fun x => c (binary_search InputGenV3.EPS (fun y => c y p) true bsLoopFuel lastr p).1 (-x))
    true bsLoopFuel (-InputGenV3.R) (-p) heps hnp
  refine ⟨hbl.1, hbl.2, ?_, ?_⟩
  · show p ≤ -(binary_search _ _ _ _ (-InputGenV3.R) (-p)).1
    have := hbr.2
    linarith
  · show -(binary_search _ _ _ _ (-InputGenV3.R) (-p)).1 ≤ InputGenV3.R
    have := hbr.1
    linarith

lemma processSeed_inv (c : Checker) (st : List Rng × List (ℚ × ℚ)) (p : ℚ)
    (rest : List ℚ) (hseed : p ∈ InputGenV3.seeds)
    (hpL : InputGenV3.L ≤ p) (hpR : p ≤ InputGenV3.R)
    (hrest : ∀ s ∈ rest, p < s)
    (hinv : searchInv st.1 (p :: rest)) :
    searchInv (InputGenV3.processSeed c st p).1 rest := by
  obtain ⟨hpw, hwf, hfut⟩ := hinv
  have hfut' : ∀ rg ∈ st.1, rg.1 < p := fun rg hrg => hfut rg hrg p (by simp)
  by_cases hincl : included st.1 p
  · have hst : (InputGenV3.processSeed c st p).1 = st.1 := by
      simp [InputGenV3.processSeed, hincl]
    rw [hst]
    exact ⟨hpw, hwf, fun rg hrg s hs => hfut rg hrg s (by simp [hs])⟩
  · by_cases hcp : c p p = false
    · have hst : (InputGenV3.processSeed c st p).1 = st.1 := by
        simp [InputGenV3.processSeed, hincl, hcp]
      rw [hst]
      exact ⟨hpw, hwf, fun rg hrg s hs => hfut rg hrg s (by simp [hs])⟩
    · have hcp' : c p p = true := by
        cases h : c p p
        · exact absurd h hcp
        · rfl
      match hlast : st.1.getLast? with
      | none =>
          have hnil : st.1 = [] := by
            cases h : st.1 with
            | nil => rfl
            | cons a l => rw [h] at hlast; simp [List.getLast?] at hlast
          have hb := mkNewRange_bounds c InputGenV3.L p hpL hpR
          have hst : (InputGenV3.processSeed c st p).1 =
              [(InputGenV3.mkNewRange c InputGenV3.L p).1] := by
            simp [InputGenV3.processSeed, included, hincl, hcp', hlast, hnil]
          rw [hst]
          refine ⟨List.pairwise_singleton _ _, ?_, ?_⟩
          · intro rg hrg
            rw [List.mem_singleton] at hrg
            subst hrg
            exact ⟨le_trans hb.2.1 hb.2.2.1, hb.1, hb.2.2.2,
              ⟨p, hseed, hb.2.1, hb.2.2.1⟩⟩
          · intro rg hrg s hs
            rw [List.mem_singleton] at hrg
            subst hrg
            exact lt_of_le_of_lt hb.2.1 (hrest s hs)
      | some last =>
          have hne : st.1 ≠ [] := by
            intro h
            rw [h] at hlast
            simp at hlast
          have hgl : st.1.getLast hne = last := by
            have hg := List.getLast?_eq_getLast st.1 hne
            rw [hlast] at hg
            exact (Option.some_inj.mp hg).symm
          have hsplit : st.1.dropLast ++ [last] = st.1 := by
            rw [← hgl]
            exact List.dropLast_append_getLast hne
          have hlastmem : last ∈ st.1 := by
            rw [← hgl]
            exact List.getLast_mem hne
          have hlastwf := hwf last hlastmem
          have hlastlt : last.1 < p := hfut' last hlastmem
          have hdropmem : ∀ x ∈ st.1.dropLast, x ∈ st.1 :=
            fun x hx => (List.dropLast_sublist st.1).subset hx
          have hdroprel : ∀ x ∈ st.1.dropLast, x.2 ≤ last.1 := by
            have hpw' : (st.1.dropLast ++ [last]).Pairwise
                (fun a b : Rng => a.2 ≤ b.1) := by
              rw [hsplit]
              exact hpw
            rw [List.pairwise_append] at hpw'
            exact fun x hx => hpw'.2.2 x hx last (List.mem_singleton_self last)
          by_cases hext : c last.1 p
          · have hst : (InputGenV3.processSeed c st p).1 =
                st.1.dropLast ++ [(last.1, p)] := by
              simp [InputGenV3.processSeed, hincl, hcp', hlast, hext]
            rw [hst]
            refine ⟨?_, ?_, ?_⟩
            · rw [List.pairwise_append]
              refine ⟨?_, List.pairwise_singleton _ _, ?_⟩
              · have hpw' : (st.1.dropLast ++ [last]).Pairwise
                    (fun a b : Rng => a.2 ≤ b.1) := by
                  rw [hsplit]; exact hpw
                rw [List.pairwise_append] at hpw'
                exact hpw'.1
              · intro a ha b hb
                rw [List.mem_singleton] at hb
                subst hb
                exact hdroprel a ha
            · intro rg hrg
              rw [List.mem_append, List.mem_singleton] at hrg
              rcases hrg with hx | hx
              · exact hwf rg (hdropmem rg hx)
              · subst hx
                exact ⟨le_of_lt hlastlt, hlastwf.2.1, hpR,
                  ⟨p, hseed, le_of_lt hlastlt, le_refl p⟩⟩
            · intro rg hrg s hs
              rw [List.mem_append, List.mem_singleton] at hrg
              rcases hrg with hx | hx
              · exact hfut rg (hdropmem rg hx) s (by simp [hs])
              · subst hx
                exact lt_trans hlastlt (hrest s hs)
          · have hnincl : ¬ (last.1 ≤ p ∧ p ≤ last.2) := by
              intro hcontra
              apply hincl
              simp only [included, List.any_eq_true]
              exact ⟨last, hlastmem, by simp [hcontra.1, hcontra.2]⟩
            have hple : last.2 < p := by
              rcases lt_or_le last.2 p with h | h
              · exact h
              · exact absurd ⟨le_of_lt hlastlt, h⟩ hnincl
            have hL2 : InputGenV3.L ≤ last.2 := le_trans hlastwf.2.1 hlastwf.1
            have hb := mkNewRange_bounds c last.2 p (le_of_lt hple) hpR
            have hst : (InputGenV3.processSeed c st p).1 =
                st.1 ++ [(InputGenV3.mkNewRange c last.2 p).1] := by
              simp [InputGenV3.processSeed, hincl, hcp', hlast, hext]
            rw [hst]
            have hallle : ∀ x ∈ st.1,
                x.2 ≤ (InputGenV3.mkNewRange c last.2 p).1.1 := by
              intro x hx
              have hx' : x ∈ st.1.dropLast ++ [last] := by rw [hsplit]; exact hx
              rw [List.mem_append, List.mem_singleton] at hx'
              rcases hx' with hd | hd
              · exact le_trans (hdroprel x hd) (le_trans hlastwf.1 hb.1)
              · subst hd
                exact hb.1
            refine ⟨?_, ?_, ?_⟩
            · rw [List.pairwise_append]
              refine ⟨hpw, List.pairwise_singleton _ _, ?_⟩
              intro a ha b hb'
              rw [List.mem_singleton] at hb'
              subst hb'
              exact hallle a ha
            · intro rg hrg
              rw [List.mem_append, List.mem_singleton] at hrg
              rcases hrg with hx | hx
              · exact hwf rg hx
              · subst hx
                exact ⟨le_trans hb.2.1 hb.2.2.1, le_trans hL2 hb.1, hb.2.2.2,
                  ⟨p, hseed, hb.2.1, hb.2.2.1⟩⟩
            · intro rg hrg s hs
              rw [List.mem_append, List.mem_singleton] at hrg
              rcases hrg with hx | hx
              · exact hfut rg hx s (by simp [hs])
              · subst hx
                exact lt_of_le_of_lt hb.2.1 (hrest s hs)

lemma foldl_processSeed_inv (c : Checker) :
    ∀ (ss : List ℚ) (st : List Rng × List (ℚ × ℚ)),
      (∀ s ∈ ss, s ∈ InputGenV3.seeds ∧ InputGenV3.L ≤ s ∧ s ≤ InputGenV3.R) →
      ss.Pairwise (· < ·) →
      searchInv st.1 ss →
      searchInv (ss.foldl (InputGenV3.processSeed c) st).1 [] := by
  intro ss
  induction ss with
  | nil => intro st _ _ hinv; exact hinv
  | cons p rest ih =>
      intro st hss hsort hinv
      rw [List.foldl_cons]
      have hp := hss p (by simp)
      rw [List.pairwise_cons] at hsort
      exact ih _ (fun s hs => hss s (by simp [hs])) hsort.2
        (processSeed_inv c st p rest hp.1 hp.2.1 hp.2.2 hsort.1 hinv)

lemma seeds_bounds :
    ∀ s ∈ InputGenV3.seeds, InputGenV3.L ≤ s ∧ s ≤ InputGenV3.R := by
  apply of_decide_eq_true
  with_unfolding_all rfl

lemma seeds_sorted : InputGenV3.seeds.Pairwise (· < ·) := by
  apply of_decide_eq_true
  with_unfolding_all rfl

lemma getRange_inv (c : Checker) (rs : List Rng)
    (h : InputGenV3.getRange c = some rs) :
    rs ≠ [] ∧
    rs.Pairwise (fun a b => a.2 ≤ b.1) ∧
    ∀ rg ∈ rs, rg.1 ≤ rg.2 ∧ InputGenV3.L ≤ rg.1 ∧ rg.2 ≤ InputGenV3.R ∧
      ∃ s ∈ InputGenV3.seeds, rg.1 ≤ s ∧ s ≤ rg.2 := by
  have hinv := foldl_processSeed_inv c InputGenV3.seeds ([], [])
    (fun s hs => ⟨hs, seeds_bounds s hs⟩)
    seeds_sorted ⟨List.Pairwise.nil, by simp, by simp⟩
  have hstate : InputGenV3.searchState c =
      InputGenV3.seeds.foldl (InputGenV3.processSeed c) ([], []) := rfl
  rw [← hstate] at hinv
  unfold InputGenV3.getRange InputGenV3.getRangeFull at h
  dsimp only at h
  by_cases hnil : (InputGenV3.searchState c).1 = []
  · rw [if_pos hnil] at h
    exact absurd h (by simp)
  · rw [if_neg hnil] at h
    rw [← Option.some_inj.mp h]
    exact ⟨hnil, hinv.1, hinv.2.1⟩

/-- C4 (amended): every RangeSet `_get_range` produces is sorted
ascending by `low`, its ranges are well-formed (`low ≤ high`), and for
every earlier/later pair the earlier range's `high` is at most the later
range's `low` — so range interiors never overlap. Full pairwise
disjointness of the closed intervals fails: a new range's `low` can
coincide exactly with the previous range's `high` (the left bisection
returns its left endpoint when the checker accepts it immediately), so
two adjacent ranges can share an endpoint (see the counterexample). -/
theorem C4_range_set_sorted (c : Checker) (rs : List Rng)
    (h : InputGenV3.getRange c = some rs) :
    rs.Pairwise (fun a b => a.2 ≤ b.1) ∧
    (∀ rg ∈ rs, rg.1 ≤ rg.2) ∧
    rs.Pairwise (fun a b => a.1 ≤ b.1) := by
  obtain ⟨_, hpw, hwf⟩ := getRange_inv c rs h
  refine ⟨hpw, fun rg hrg => (hwf rg hrg).1, ?_⟩
  refine List.Pairwise.imp_of_mem ?_ hpw
  intro a b ha _ hab
  exact le_trans (hwf a ha).1 hab

/-- A checker accepting exactly the ranges of width at most 1. -/
def checkerW : Checker := fun l r => decide (r - l ≤ 1)

/-- The RangeSet `_get_range` discovers under `checkerW`. -/
def wRngs : List Rng := [(-25/16, -21/32), (-21/32, 1/3), (1/3, 55/48)]

/-- Counterexample for C4 as stated: under `checkerW` the search returns
three ranges in which the first range's `high` and the second range's
`low` are both `-21/32` (and likewise `1/3` is shared by the second and
third): the point `-21/32` belongs to two distinct ranges, so the
RangeSet is not pairwise disjoint. -/
theorem C4_counterexample :
    InputGenV3.getRange checkerW = some wRngs ∧
    ((-25 : ℚ)/16 ≤ -21/32 ∧ ((-21 : ℚ)/32) ≤ -21/32) ∧
    (((-21 : ℚ)/32) ≤ -21/32 ∧ ((-21 : ℚ)/32) ≤ 1/3) := by
  refine ⟨by with_unfolding_all rfl, ⟨by norm_num, le_refl _⟩, le_refl _, by norm_num⟩

/-- Witness for C4: the amended theorem applied to `checkerW` and its
concrete RangeSet. -/
theorem C4_witness :
    InputGenV3.getRange checkerW = some wRngs ∧
    wRngs.Pairwise (fun a b => a.2 ≤ b.1) :=
  ⟨by with_unfolding_all rfl,
   (C4_range_set_sorted checkerW wRngs (by with_unfolding_all rfl)).1⟩

/-- C10: `infer_domain` never returns an empty list: its result is
either the null sentinel or a non-empty list of ranges, each of which
contains a seed point of the search grid (the seed it was built from or,
on the fast path, a grid point inside `(0, 1)`) and lies within the
global bounds `[L, R]`. -/
theorem C10_infer_domain_shape (c : Checker) (rs : List Rng)
    (h : (InputGenV3.infer_domain c).1 = some rs) :
    rs ≠ [] ∧
    ∀ rg ∈ rs, InputGenV3.L ≤ rg.1 ∧ rg.2 ≤ InputGenV3.R ∧
      ∃ s ∈ InputGenV3.seeds, rg.1 ≤ s ∧ s ≤ rg.2 := by
  by_cases hc : c 0 1
  · have hfast : (InputGenV3.infer_domain c).1 = some [(0, 1)] := by
      simp [InputGenV3.infer_domain, hc]
    rw [hfast] at h
    rw [← Option.some_inj.mp h]
    refine ⟨by simp, ?_⟩
    intro rg hrg
    rw [List.mem_singleton] at hrg
    subst hrg
    refine ⟨by norm_num [InputGenV3.L], by norm_num [InputGenV3.R],
      ⟨1/9, ?_, by norm_num, by norm_num⟩⟩
    apply of_decide_eq_true
    with_unfolding_all rfl
  · have hslow : (InputGenV3.infer_domain c).1 = InputGenV3.getRange c := by
      simp [InputGenV3.infer_domain, hc, InputGenV3.getRange]
    rw [hslow] at h
    obtain ⟨hne, _, hwf⟩ := getRange_inv c rs h
    exact ⟨hne, fun rg hrg =>
      ⟨(hwf rg hrg).2.1, (hwf rg hrg).2.2.1, (hwf rg hrg).2.2.2⟩⟩

/-- Witness for C10: the fast path of the always-accepting checker. -/
theorem C10_witness :
    (InputGenV3.infer_domain cTrue).1 = some [(0, 1)] ∧
    ([((0 : ℚ), (1 : ℚ))] : List Rng) ≠ [] :=
  ⟨rfl, (C10_infer_domain_shape cTrue [(0, 1)] rfl).1⟩
